import Mathlib

set_option maxRecDepth 4000

/-!
Shallow embedding of the `indexnow` crate (src/lib.rs, src/main.rs) together
with the behavior of the dependencies its core relies on: the `http` crate
URI parser/printer, the key regular expression `^[a-zA-Z0-9\-]{8,128}$`,
`serde_urlencoded` (form-urlencoded serialization of the GET query struct)
and `serde_json` (serialization of the POST body struct).

Strings are modelled as Lean `String`/`List Char`.  The `http` crate scans
bytes, but every character class it uses is ASCII-only, so scanning
characters is observably equivalent: every byte of a multi-byte UTF-8
character is at least 0x80 and belongs to no class, exactly as the character
itself belongs to no class.  The crate's internal length limits (total URI
at most 65534 bytes, scheme at most 64 bytes) are not modelled.
-/

namespace Indexnow

/-! ### ASCII helpers -/

def charLowerAscii (c : Char) : Char :=
  if 'A' ≤ c ∧ c ≤ 'Z' then Char.ofNat (c.toNat + 32) else c

def lowerList (cs : List Char) : List Char := cs.map charLowerAscii

/-- `str::eq_ignore_ascii_case`, used by the `http` crate for scheme
recognition and for `Authority`/`Scheme` equality. -/
def eqIgnoreAsciiCase (a b : String) : Bool := lowerList a.data == lowerList b.data

def isAsciiAlpha (c : Char) : Bool := ('a' ≤ c && c ≤ 'z') || ('A' ≤ c && c ≤ 'Z')
def isAsciiDigit (c : Char) : Bool := '0' ≤ c && c ≤ '9'
def isAsciiAlphanum (c : Char) : Bool := isAsciiAlpha c || isAsciiDigit c

/-! ### http crate: Scheme -/

/-- `http::uri::Scheme`: the standard protocols are interned, any other
scheme is kept as its string. -/
inductive Scheme where
  | http
  | https
  | other (s : String)
deriving DecidableEq

def Scheme.str : Scheme → String
  | .http => "http"
  | .https => "https"
  | .other s => s

/-- `PartialEq for Scheme`: standard protocols compare by tag, two
non-standard schemes compare ASCII-case-insensitively, and a standard
protocol never equals a non-standard scheme. -/
def schemeEq : Scheme → Scheme → Bool
  | .http, .http => true
  | .https, .https => true
  | .other a, .other b => eqIgnoreAsciiCase a b
  | _, _ => false

/-- `SCHEME_CHARS` of the http crate: alphanumeric plus `+`, `-`, `.`
(the colon is handled separately as the scheme terminator). -/
def schemeChar (c : Char) : Bool := isAsciiAlphanum c || c = '+' || c = '-' || c = '.'

/-- `Scheme2::parse`: the standard `http://` / `https://` prefixes are
recognized ASCII-case-insensitively; otherwise a run of scheme characters
followed by `://` is a non-standard scheme; otherwise there is no scheme
and nothing is consumed.  (An empty scheme name is treated as no scheme;
the crate rejects such an input while scanning the remainder, and so does
the model.) -/
def schemeParse (cs : List Char) : Option Scheme × List Char :=
  if lowerList (cs.take 7) = "http://".data then (some .http, cs.drop 7)
  else if lowerList (cs.take 8) = "https://".data then (some .https, cs.drop 8)
  else
    let sch := cs.takeWhile schemeChar
    match cs.dropWhile schemeChar with
    | ':' :: '/' :: '/' :: rest =>
      if sch.isEmpty then (none, cs) else (some (.other (String.mk sch)), rest)
    | _ => (none, cs)

/-! ### http crate: Authority -/

/-- `URI_CHARS` table of the http crate: the bytes that may appear in a URI
at all (unreserved characters, gen-delims, sub-delims and `%`). -/
def uriChar (c : Char) : Bool :=
  isAsciiAlphanum c || c = '!' || c = '$' || c = '%' || c = '&' || c = Char.ofNat 39 ||
  c = Char.ofNat 40 || c = Char.ofNat 41 || c = '*' || c = '+' || c = ',' || c = '-' ||
  c = '.' || c = '/' || c = ':' || c = ';' || c = '=' || c = '?' || c = '@' ||
  c = '[' || c = ']' || c = '_' || c = '~' || c = '#'

/-- The three bytes that terminate the authority component. -/
def isAuthTerm (c : Char) : Bool := c = '/' || c = '?' || c = '#'

/-- The running state of `Authority::parse`: colon count, bracket flags,
pending percent sign, and whether the previous byte was `@`. -/
structure AuthSt where
  colons : Nat
  startB : Bool
  endB : Bool
  pct : Bool
  lastAt : Bool
deriving DecidableEq

def authInit : AuthSt := ⟨0, false, false, false, false⟩

/-- One step of the `Authority::parse` loop on a non-terminator byte. -/
def authStep (st : AuthSt) (c : Char) : Option AuthSt :=
  if !uriChar c then none
  else if c = ':' then
    if 8 ≤ st.colons then none
    else some { st with colons := st.colons + 1, lastAt := false }
  else if c = '[' then
    if st.pct || st.startB then none else some { st with startB := true, lastAt := false }
  else if c = ']' then
    if st.endB then none
    else some { st with endB := true, colons := 0, pct := false, lastAt := false }
  else if c = '@' then
    some { st with colons := 0, pct := false, lastAt := true }
  else if c = '%' then
    some { st with pct := true, lastAt := false }
  else some { st with lastAt := false }

def authFold : List Char → Option AuthSt → Option AuthSt
  | [], st => st
  | c :: r, st => authFold r (st.bind fun s => authStep s c)

/-- The end-of-scan checks of `Authority::parse`: brackets balanced, at most
one port colon, no empty host after a userinfo `@`, no percent sign left in
the host. -/
def authChecks (a : List Char) (st : AuthSt) : Bool :=
  (st.startB == st.endB) && (st.colons ≤ 1) && !(!a.isEmpty && st.lastAt) && !st.pct

/-- `Authority::parse`: returns the authority bytes and the unconsumed rest
(starting at the first `/`, `?` or `#`), or `none` on an invalid authority.
The crate reports an invalid byte as soon as it reaches it; whether the
error fires during or after the scan is unobservable, so the model scans
first and validates after. -/
def authorityParse (cs : List Char) : Option (List Char × List Char) :=
  let a := cs.takeWhile fun c => !isAuthTerm c
  let rest := cs.dropWhile fun c => !isAuthTerm c
  match authFold a (some authInit) with
  | none => none
  | some st => if authChecks a st then some (a, rest) else none

/-- `Authority::host`: the part after the last `@`, then either the bracketed
IPv6 literal or everything before the first `:`. -/
def takeThroughRBracket : List Char → List Char
  | [] => []
  | c :: r => if c = ']' then [c] else c :: takeThroughRBracket r

def hostOfAuthority (a : String) : String :=
  let hostPort := (a.data.reverse.takeWhile fun c => c ≠ '@').reverse
  match hostPort with
  | '[' :: _ => String.mk (takeThroughRBracket hostPort)
  | _ => String.mk (hostPort.takeWhile fun c => c ≠ ':')

/-! ### http crate: PathAndQuery -/

/-- The bytes `PathAndQuery::from_shared` accepts in the path component
(the `?` and `#` terminators are outside this set). -/
def pathChar (c : Char) : Bool :=
  let n := c.toNat
  n = 0x21 || (0x24 ≤ n && n ≤ 0x3B) || n = 0x3D || (0x40 ≤ n && n ≤ 0x5F) ||
  (0x61 ≤ n && n ≤ 0x7A) || n = 0x7C || n = 0x7E

/-- The bytes `PathAndQuery::from_shared` accepts in the query component. -/
def queryChar (c : Char) : Bool :=
  let n := c.toNat
  n = 0x21 || (0x24 ≤ n && n ≤ 0x3B) || n = 0x3D || (0x3F ≤ n && n ≤ 0x7E)

/-- `PathAndQuery::from_shared`: a path of path bytes, optionally a `?` and
a query of query bytes; a `#` truncates the rest (the fragment is dropped);
any other byte is an error. -/
def paqParse (cs : List Char) : Option (String × Option String) :=
  let p := cs.takeWhile pathChar
  match cs.dropWhile pathChar with
  | [] => some (String.mk p, none)
  | c :: r2 =>
    if c = '#' then some (String.mk p, none)
    else if c = '?' then
      let q := r2.takeWhile queryChar
      match r2.dropWhile queryChar with
      | [] => some (String.mk p, some (String.mk q))
      | d :: _ => if d = '#' then some (String.mk p, some (String.mk q)) else none
    else none

/-! ### http crate: Uri -/

/-- `http::Uri`, split into its components.  `pathRaw` is the stored path
bytes (possibly empty); the `path` accessor below performs the crate's
normalization.  The fragment is never stored. -/
structure Uri where
  scheme : Option Scheme
  authority : Option String
  pathRaw : String
  query : Option String
deriving DecidableEq

/-- `parse_full` of the http crate: optional scheme, then the authority
(which must cover the whole rest when there is no scheme, and must be
non-empty when there is one), then path and query. -/
def parseFull (cs : List Char) : Option Uri :=
  match schemeParse cs with
  | (schOpt, rest) =>
    match authorityParse rest with
    | none => none
    | some (a, rest2) =>
      match schOpt with
      | none =>
        if rest2.isEmpty && !a.isEmpty then
          some ⟨none, some (String.mk a), "", none⟩
        else none
      | some sch =>
        if a.isEmpty then none
        else
          match paqParse rest2 with
          | none => none
          | some (p, q) => some ⟨some sch, some (String.mk a), p, q⟩

/-- `Uri::from_str` (`Uri::parse`): empty input is an error, `"*"` is the
asterisk form, an input starting with `/` is the origin form (path and
query only), anything else is parsed by `parse_full`. -/
def Uri.parse (s : String) : Option Uri :=
  match s.data with
  | [] => none
  | c :: rest =>
    if c = '*' && rest.isEmpty then some ⟨none, none, "*", none⟩
    else if c = '/' then
      match paqParse (c :: rest) with
      | none => none
      | some (p, q) => some ⟨none, none, p, q⟩
    else parseFull (c :: rest)

/-- `Uri::path` returns the empty string only for an authority-form URI;
`PathAndQuery::path` turns stored empty path bytes into `/`. -/
def Uri.hasPath (u : Uri) : Bool := !(u.pathRaw = "" && u.query.isNone) || u.scheme.isSome

def Uri.path (u : Uri) : String :=
  if u.hasPath then (if u.pathRaw = "" then "/" else u.pathRaw) else ""

/-- `Uri::host`: present exactly when the authority is present. -/
def Uri.host (u : Uri) : Option String := u.authority.map hostOfAuthority

/-- `Display for Uri`: scheme with `://`, authority, normalized path, `?`
and the query when present. -/
def Uri.toString (u : Uri) : String :=
  (match u.scheme with | some s => s.str ++ "://" | none => "") ++
  (match u.authority with | some a => a | none => "") ++
  u.path ++
  (match u.query with | some q => "?" ++ q | none => "")

/-- `PartialEq for Uri`: componentwise over the accessors — schemes via
`schemeEq`, authorities ASCII-case-insensitively, normalized paths and
queries exactly. -/
def uriEq (a b : Uri) : Bool :=
  (match a.scheme, b.scheme with
   | some x, some y => schemeEq x y
   | none, none => true
   | _, _ => false) &&
  (match a.authority, b.authority with
   | some x, some y => eqIgnoreAsciiCase x y
   | none, none => true
   | _, _ => false) &&
  (a.path == b.path) && (a.query == b.query)

/-! ### Domain types (src/lib.rs) -/

/-- `indexnow::EndpointUrl`, a newtype over `http::Uri`. -/
structure EndpointUrl where
  uri : Uri
deriving DecidableEq

def EndpointUrl.toString (e : EndpointUrl) : String := e.uri.toString

/-- `EndpointUrl::from_str`: parse the URI, require an http or https scheme,
reject any query string.  The error type carries no data, so failure is
`none`. -/
def EndpointUrl.from_str (s : String) : Option EndpointUrl :=
  match Uri.parse s with
  | none => none
  | some uri =>
    match uri.scheme with
    | none => none
    | some sch =>
      if !(schemeEq sch .http || schemeEq sch .https) then none
      else
        match uri.query with
        | some _ => none
        | none => some ⟨uri⟩

/-- `EndpointUrl::default` parses this known literal and unwraps with
`expect`; the model keeps the fallible parse so that its success is a
theorem, not an assumption. -/
def EndpointUrl.defaultImpl : Option EndpointUrl :=
  EndpointUrl.from_str "https://api.indexnow.org/indexnow"

/-- `indexnow::Key`, a newtype over the raw key string. -/
structure Key where
  val : String
deriving DecidableEq

/-- The character class of `KEY_REGEX` (`[a-zA-Z0-9\-]`). -/
def isKeyChar (c : Char) : Bool := isAsciiAlphanum c || c = '-'

/-- `KEY_REGEX.is_match`: the anchored pattern `^[a-zA-Z0-9\-]{8,128}$`
matches exactly the strings of 8 to 128 key characters. -/
def keyRegexMatches (s : String) : Bool :=
  decide (8 ≤ s.data.length) && decide (s.data.length ≤ 128) && s.data.all isKeyChar

/-- `Key::from_str`. -/
def Key.from_str (s : String) : Option Key :=
  if keyRegexMatches s then some ⟨s⟩ else none

/-- `indexnow::KeyfileUrl`, a newtype over `http::Uri`. -/
structure KeyfileUrl where
  uri : Uri
deriving DecidableEq

def KeyfileUrl.toString (k : KeyfileUrl) : String := k.uri.toString

/-- `KeyfileUrl::from_str`: parse the URI and require an http or https
scheme (no query restriction). -/
def KeyfileUrl.from_str (s : String) : Option KeyfileUrl :=
  match Uri.parse s with
  | none => none
  | some uri =>
    match uri.scheme with
    | none => none
    | some sch =>
      if !(schemeEq sch .http || schemeEq sch .https) then none
      else some ⟨uri⟩

/-- `indexnow::KeyfileLocation`: implicit root-directory placement or an
explicit keyfile URL. -/
inductive KeyfileLocation where
  | rootDirectory
  | url (u : KeyfileUrl)
deriving DecidableEq

/-- `KeyfileLocation::is_rootdirectory`, the `skip_serializing_if` guard. -/
def KeyfileLocation.is_rootdirectory : KeyfileLocation → Bool
  | .rootDirectory => true
  | .url _ => false

/-- `indexnow::ContentUrl`, a newtype over `http::Uri`. -/
structure ContentUrl where
  uri : Uri
deriving DecidableEq

def ContentUrl.toString (c : ContentUrl) : String := c.uri.toString

/-- `ContentUrl::from_str`: parse the URI and require an http or https
scheme (no query restriction). -/
def ContentUrl.from_str (s : String) : Option ContentUrl :=
  match Uri.parse s with
  | none => none
  | some uri =>
    match uri.scheme with
    | none => none
    | some sch =>
      if !(schemeEq sch .http || schemeEq sch .https) then none
      else some ⟨uri⟩

/-! ### serde_urlencoded / form-urlencoded encoding -/

/-- UTF-8 encoding of one character, as a list of byte values. -/
def utf8Bytes (c : Char) : List Nat :=
  let n := c.toNat
  if n < 0x80 then [n]
  else if n < 0x800 then [0xC0 + n / 64, 0x80 + n % 64]
  else if n < 0x10000 then [0xE0 + n / 4096, 0x80 + n / 64 % 64, 0x80 + n % 64]
  else [0xF0 + n / 0x40000, 0x80 + n / 4096 % 64, 0x80 + n / 64 % 64, 0x80 + n % 64]

def hexUpper (n : Nat) : Char :=
  if n < 10 then Char.ofNat (48 + n) else Char.ofNat (55 + n)

/-- The bytes `form_urlencoded` passes through unencoded:
alphanumerics and `*`, `-`, `.`, `_`. -/
def formSafeByte (b : Nat) : Bool :=
  (48 ≤ b && b ≤ 57) || (65 ≤ b && b ≤ 90) || (97 ≤ b && b ≤ 122) ||
  b = 42 || b = 45 || b = 46 || b = 95

/-- `form_urlencoded` byte serialization: safe bytes pass through, space
becomes `+`, everything else becomes `%XX` with uppercase hex. -/
def encByte (b : Nat) : List Char :=
  if formSafeByte b then [Char.ofNat b]
  else if b = 32 then ['+']
  else ['%', hexUpper (b / 16), hexUpper (b % 16)]

/-- `form_urlencoded` percent-encoding of one string. -/
def formUrlencode (s : String) : String :=
  String.mk (s.data.flatMap fun c => (utf8Bytes c).flatMap encByte)

def joinAmp : List String → String
  | [] => ""
  | [x] => x
  | x :: r => x ++ "&" ++ joinAmp r

/-- `serde_urlencoded::to_string` on a struct: the fields in declaration
order as `name=value` pairs joined by `&`, both sides percent-encoded. -/
def urlencodePairs (ps : List (String × String)) : String :=
  joinAmp (ps.map fun p => formUrlencode p.1 ++ "=" ++ formUrlencode p.2)

/-- The serialized fields of the private `Query` struct of
`submit_one_request`: `url`, `key`, and `keyLocation` unless the location
is the root-directory variant (`skip_serializing_if`). -/
def queryPairs (u : ContentUrl) (k : Key) (loc : KeyfileLocation) : List (String × String) :=
  [("url", u.toString), ("key", k.val)] ++
  match loc with
  | .rootDirectory => []
  | .url kf => [("keyLocation", kf.toString)]

/-! ### serde_json encoding of the POST body -/

/-- The JSON values serde_json produces for the `UrlSet` struct: strings
and the array of URL strings. -/
inductive JsonVal where
  | jstr (s : String)
  | jarrStr (elems : List String)
deriving DecidableEq

def hexLower (n : Nat) : Char :=
  if n < 10 then Char.ofNat (48 + n) else Char.ofNat (87 + n)

/-- serde_json string escaping: quote, backslash, and control characters
(with the usual short escapes). -/
def jsonEscapeChar (c : Char) : List Char :=
  if c = '"' then ['\\', '"']
  else if c = '\\' then ['\\', '\\']
  else if c.toNat < 0x20 then
    if c.toNat = 8 then ['\\', 'b']
    else if c.toNat = 9 then ['\\', 't']
    else if c.toNat = 10 then ['\\', 'n']
    else if c.toNat = 12 then ['\\', 'f']
    else if c.toNat = 13 then ['\\', 'r']
    else ['\\', 'u', '0', '0', hexLower (c.toNat / 16), hexLower (c.toNat % 16)]
  else [c]

def jsonStr (s : String) : String :=
  "\"" ++ String.mk (s.data.flatMap jsonEscapeChar) ++ "\""

def joinComma : List String → String
  | [] => ""
  | [x] => x
  | x :: r => x ++ "," ++ joinComma r

def renderJsonVal : JsonVal → String
  | .jstr s => jsonStr s
  | .jarrStr xs => "[" ++ joinComma (xs.map jsonStr) ++ "]"

/-- `serde_json::to_vec` of a struct: the fields in declaration order. -/
def renderObj (fs : List (String × JsonVal)) : String :=
  "\x7b" ++ joinComma (fs.map fun f => jsonStr f.1 ++ ":" ++ renderJsonVal f.2) ++ "\x7d"

/-! ### Requests (src/lib.rs request builders) -/

/-- The body of a built request: `()` for the GET form, the serialized
`UrlSet` JSON document for the POST form.  The Rust request stores the
rendered bytes; `Body.render` is that byte view. -/
inductive Body where
  | empty
  | json (fields : List (String × JsonVal))
deriving DecidableEq

def Body.render : Body → String
  | .empty => ""
  | .json fs => renderObj fs

/-- `http::Request` as built by the two request builders. -/
structure Request where
  method : String
  uri : Uri
  headers : List (String × String)
  body : Body
deriving DecidableEq

/-- `Uri::from_parts` as used by `submit_one_request`: the path-and-query
part is always supplied there, so a scheme requires an authority and an
authority requires a scheme. -/
def uriFromParts (sch : Option Scheme) (auth : Option String) (p : String)
    (q : Option String) : Option Uri :=
  match sch, auth with
  | some s, some a => some ⟨some s, some a, p, q⟩
  | some _, none => none
  | none, some _ => none
  | none, none => some ⟨none, none, p, q⟩

/-- `submit_one_request`: serialize the query struct, append it after `?`
to the endpoint's path, re-parse that as a `PathAndQuery`, and rebuild the
URI from the endpoint's scheme and authority; method GET, empty body. -/
def submit_one_request (e : EndpointUrl) (k : Key) (loc : KeyfileLocation)
    (u : ContentUrl) : Option Request :=
  let qs := urlencodePairs (queryPairs u k loc)
  let paqStr := e.uri.path ++ "?" ++ qs
  match paqParse paqStr.data with
  | none => none
  | some (p, q) =>
    match uriFromParts e.uri.scheme e.uri.authority p q with
    | none => none
    | some newUri => some ⟨"GET", newUri, [], .empty⟩

/-- The serialized fields of the private `UrlSet` struct of
`submit_set_request`: `host`, `key`, `keyLocation` unless root-directory,
`urlList`. -/
def urlSetFields (host : String) (k : Key) (loc : KeyfileLocation)
    (urls : List ContentUrl) : List (String × JsonVal) :=
  [("host", .jstr host), ("key", .jstr k.val)] ++
  (match loc with
   | .rootDirectory => []
   | .url kf => [("keyLocation", .jstr kf.toString)]) ++
  [("urlList", .jarrStr (urls.map ContentUrl.toString))]

/-- The outcome of `submit_set_request`, which can panic: `urls[0]` on an
empty vector, and the `expect` on a host-less first URL. -/
inductive BuildResult where
  | panics (msg : String)
  | built (r : Request)
deriving DecidableEq

def BuildResult.isBuilt : BuildResult → Bool
  | .built _ => true
  | .panics _ => false

/-- `submit_set_request`: indexes `urls[0]` (panicking on an empty list),
extracts its host with `expect`, then builds a POST to the endpoint URI
verbatim with a `content-type: application/json` header and the serialized
`UrlSet` body.  (`serde_json::to_vec` cannot fail on these field types, so
the defensive error arm of the source is unreachable and not modelled.) -/
def submit_set_request (e : EndpointUrl) (k : Key) (loc : KeyfileLocation)
    (urls : List ContentUrl) : BuildResult :=
  match urls with
  | [] => .panics "index out of bounds: the len is 0 but the index is 0"
  | u :: _ =>
    match u.uri.host with
    | none => .panics "validated newtype URL to have host"
    | some h =>
      .built ⟨"POST", e.uri, [("content-type", "application/json")],
              .json (urlSetFields h k loc urls)⟩

/-- The outcome of `submit`: it builds and unwraps the single-URL request
when the list has exactly one element (printing it), and in every case ends
in the `todo!()` panic. -/
inductive SubmitResult where
  | todoPanicAfterSingle (r : Request)
  | unwrapPanic
  | todoPanic
deriving DecidableEq

/-- `submit`: `if urls.len() == 1` build (and unwrap) the single-URL GET
request, then `todo!()` unconditionally. -/
def submit (e : EndpointUrl) (k : Key) (loc : KeyfileLocation)
    (urls : List ContentUrl) : SubmitResult :=
  match urls with
  | [u] =>
    match submit_one_request e k loc u with
    | none => .unwrapPanic
    | some r => .todoPanicAfterSingle r
  | _ => .todoPanic

/-- src/main.rs: the clap declaration of the `urls` positional argument,
`required = true, num_args = 1..=10_000` — the CLI accepts a URL count `n`
exactly when `1 ≤ n ≤ 10000`. -/
def cliUrlsCountAccepted (n : Nat) : Bool := 1 ≤ n && n ≤ 10000

/-! ## The parsed-URI invariant and derived definitions -/

/-- The invariants every `Uri` produced by `Uri.parse` satisfies. -/
structure UriInv (u : Uri) : Prop where
  schemeAuth : ∀ sch, u.scheme = some sch →
    ∃ a, u.authority = some a ∧ a.data ≠ [] ∧ authorityParse a.data = some (a.data, [])
  pathChars : ∀ c ∈ u.pathRaw.data, pathChar c = true
  pathShape : u.scheme.isSome = true → u.pathRaw = "" ∨ u.pathRaw.data.head? = some '/'


/-- `PartialEq` on `Option`-like parse results, with the payload compared
by the given equality (the Rust `==` between two parse `Result`s). -/
def optEqBy {α : Type} (f : α → α → Bool) : Option α → Option α → Bool
  | some a, some b => f a b
  | none, none => true
  | _, _ => false

/-! ## Concrete example values (the values the crate unit tests use) -/

def exEndpoint : EndpointUrl :=
  ⟨⟨some Scheme.https, some "api.indexnow.org", "/indexnow", none⟩⟩

def exKey : Key := ⟨"687a308e4eff49f994d89eb22f764514"⟩

def exContent : ContentUrl :=
  ⟨⟨some Scheme.https, some "www.example.com", "/product.html", none⟩⟩

def exUrl1 : ContentUrl := ⟨⟨some Scheme.https, some "www.example.com", "/url1", none⟩⟩

def exUrl2 : ContentUrl :=
  ⟨⟨some Scheme.https, some "www.example.com", "/folder/url2", none⟩⟩

def exUrl3 : ContentUrl := ⟨⟨some Scheme.https, some "www.example.com", "/url3", none⟩⟩

def exKeyfile : KeyfileUrl :=
  ⟨⟨some Scheme.https, some "www.example.com", "/myIndexNowKey63638.txt", none⟩⟩

/-- Looks a field up in a serialized JSON object (by exact name). -/
def findField (n : String) : List (String × JsonVal) → Option JsonVal
  | [] => none
  | (m, v) :: r => if m = n then some v else findField n r

/-- The length of the `urlList` array of a built batch request, if any. -/
def urlListLengthOf : BuildResult → Option Nat
  | .built r => match r.body with
    | .json fs => match findField "urlList" fs with
      | some (.jarrStr xs) => some xs.length
      | _ => none
    | .empty => none
  | .panics _ => none

/-- Whether `submit` reached the single-URL build before its `todo!()`. -/
def SubmitResult.isSingleBuild : SubmitResult → Bool
  | .todoPanicAfterSingle _ => true
  | _ => false


/-! ## Lemmas about the scanners -/

theorem mk_data (s : String) : String.mk s.data = s := rfl

theorem data_eq_nil {s : String} (h : s.data = []) : s = "" := by
  have := mk_data s
  rw [h] at this
  exact this.symm

/-- Unfolding `authorityParse` at a successful result. -/
theorem authorityParse_some {cs a rest : List Char} (h : authorityParse cs = some (a, rest)) :
    a = cs.takeWhile (fun c => !isAuthTerm c) ∧ rest = cs.dropWhile (fun c => !isAuthTerm c) ∧
    ∃ st, authFold a (some authInit) = some st ∧ authChecks a st = true := by
  simp only [authorityParse] at h
  split at h
  · exact absurd h (by simp)
  · next st hfold =>
      split at h
      · next hc =>
          have h' := Option.some.inj h
          have ha : cs.takeWhile (fun c => !isAuthTerm c) = a := congrArg Prod.fst h'
          have hr : cs.dropWhile (fun c => !isAuthTerm c) = rest := congrArg Prod.snd h'
          subst ha; subst hr
          exact ⟨rfl, rfl, st, hfold, hc⟩
      · exact absurd h (by simp)

theorem authorityParse_all_nonterm {cs a rest : List Char}
    (h : authorityParse cs = some (a, rest)) : ∀ c ∈ a, (!isAuthTerm c) = true := by
  obtain ⟨ha, -, -⟩ := authorityParse_some h
  intro c hc
  rw [ha] at hc
  simpa using List.mem_takeWhile_imp hc

/-- A successfully scanned authority re-scans to itself. -/
theorem authorityParse_fix {cs a rest : List Char}
    (h : authorityParse cs = some (a, rest)) : authorityParse a = some (a, []) := by
  have hall := authorityParse_all_nonterm h
  obtain ⟨-, -, st, hfold, hc⟩ := authorityParse_some h
  simp only [authorityParse, List.takeWhile_eq_self_iff.mpr hall,
    List.dropWhile_eq_nil_iff.mpr hall, hfold, hc, if_true]

/-- Scanning a valid authority followed by a terminator stops at the
terminator. -/
theorem authorityParse_append {a ys : List Char}
    (hfix : authorityParse a = some (a, []))
    (hterm : ∀ d, ys.head? = some d → isAuthTerm d = true) :
    authorityParse (a ++ ys) = some (a, ys) := by
  have hall := authorityParse_all_nonterm hfix
  obtain ⟨-, -, st, hfold, hc⟩ := authorityParse_some hfix
  have htw : List.takeWhile (fun c => !isAuthTerm c) ys = [] := by
    cases ys with
    | nil => rfl
    | cons d r =>
        have := hterm d rfl
        simp [List.takeWhile_cons, this]
  have hdw : List.dropWhile (fun c => !isAuthTerm c) ys = ys := by
    cases ys with
    | nil => rfl
    | cons d r =>
        have := hterm d rfl
        simp [List.dropWhile_cons, this]
  simp only [authorityParse, List.takeWhile_append_of_pos hall,
    List.dropWhile_append_of_pos hall, htw, hdw, List.append_nil, hfold, hc, if_true]

/-- Unfolding `paqParse` at a successful result. -/
theorem paqParse_some {cs : List Char} {p : String} {q : Option String}
    (h : paqParse cs = some (p, q)) :
    p.data = cs.takeWhile pathChar ∧ (∀ c ∈ p.data, pathChar c = true) ∧
    (∀ qs, q = some qs → ∀ c ∈ qs.data, queryChar c = true) := by
  simp only [paqParse] at h
  split at h
  · next hdw =>
      have h' := Option.some.inj h
      have hp : String.mk (cs.takeWhile pathChar) = p := congrArg Prod.fst h'
      have hq : (none : Option String) = q := congrArg Prod.snd h'
      subst hp; subst hq
      refine ⟨rfl, fun c hc => List.mem_takeWhile_imp hc, fun qs hqs => by cases hqs⟩
  · next c r2 hdw =>
      split at h
      · have h' := Option.some.inj h
        have hp : String.mk (cs.takeWhile pathChar) = p := congrArg Prod.fst h'
        have hq : (none : Option String) = q := congrArg Prod.snd h'
        subst hp; subst hq
        refine ⟨rfl, fun c hc => List.mem_takeWhile_imp hc, fun qs hqs => by cases hqs⟩
      · split at h
        · split at h
          · next hdw2 =>
              have h' := Option.some.inj h
              have hp : String.mk (cs.takeWhile pathChar) = p := congrArg Prod.fst h'
              have hq : some (String.mk (r2.takeWhile queryChar)) = q := congrArg Prod.snd h'
              subst hp; subst hq
              refine ⟨rfl, fun c hc => List.mem_takeWhile_imp hc, fun qs hqs => ?_⟩
              cases Option.some.inj hqs
              exact fun c hc => List.mem_takeWhile_imp hc
          · split at h
            · have h' := Option.some.inj h
              have hp : String.mk (cs.takeWhile pathChar) = p := congrArg Prod.fst h'
              have hq : some (String.mk (r2.takeWhile queryChar)) = q := congrArg Prod.snd h'
              subst hp; subst hq
              refine ⟨rfl, fun c hc => List.mem_takeWhile_imp hc, fun qs hqs => ?_⟩
              cases Option.some.inj hqs
              exact fun c hc => List.mem_takeWhile_imp hc
            · exact absurd h (by simp)
        · exact absurd h (by simp)

/-- A list of path bytes parses as a bare path. -/
theorem paqParse_path_only {p : List Char} (hall : ∀ c ∈ p, pathChar c = true) :
    paqParse p = some (String.mk p, none) := by
  simp only [paqParse, List.takeWhile_eq_self_iff.mpr hall,
    List.dropWhile_eq_nil_iff.mpr hall]

/-- Path bytes, `?`, query bytes parse as that path and that query. -/
theorem paqParse_with_query {p q : List Char}
    (hp : ∀ c ∈ p, pathChar c = true) (hq : ∀ c ∈ q, queryChar c = true) :
    paqParse (p ++ '?' :: q) = some (String.mk p, some (String.mk q)) := by
  have hqm : pathChar '?' = false := by decide
  have htw : List.takeWhile pathChar (p ++ '?' :: q) = p := by
    rw [List.takeWhile_append_of_pos hp]
    simp [List.takeWhile_cons, hqm]
  have hdw : List.dropWhile pathChar (p ++ '?' :: q) = '?' :: q := by
    rw [List.dropWhile_append_of_pos hp]
    simp [List.dropWhile_cons, hqm]
  simp only [paqParse, htw, hdw, List.takeWhile_eq_self_iff.mpr hq,
    List.dropWhile_eq_nil_iff.mpr hq]
  rfl

/-! ## Invariants of parsed URIs -/

theorem parseFull_inv {cs : List Char} {u : Uri} (h : parseFull cs = some u) : UriInv u := by
  unfold parseFull at h
  rcases hsp : schemeParse cs with ⟨schOpt, rest⟩
  rw [hsp] at h
  dsimp only at h
  rcases hap : authorityParse rest with - | ⟨a, rest2⟩ <;> rw [hap] at h <;> dsimp only at h
  · exact absurd h (by simp)
  · rcases schOpt with - | sch <;> dsimp only at h
    · split at h
      · cases Option.some.inj h
        refine ⟨fun sch hs => (by cases hs), fun c hc => (by simp at hc), fun hs => (by simp at hs)⟩
      · exact absurd h (by simp)
    · split at h
      · exact absurd h (by simp)
      · next hane =>
          rcases hpq : paqParse rest2 with - | ⟨p, q⟩ <;> rw [hpq] at h <;> dsimp only at h
          · exact absurd h (by simp)
          · cases Option.some.inj h
            obtain ⟨hpd, hpc, hqc⟩ := paqParse_some hpq
            obtain ⟨-, hrest2, -⟩ := authorityParse_some hap
            refine ⟨?_, hpc, ?_⟩
            · intro sch' hs
              cases Option.some.inj hs
              refine ⟨String.mk a, rfl, by simpa using hane, ?_⟩
              exact authorityParse_fix hap
            · intro _
              rcases hh : rest2.head? with - | d
              · left
                apply data_eq_nil
                rw [hpd]
                cases rest2
                · rfl
                · simp at hh
              · have hd : (!isAuthTerm d) = false := by
                  have := List.head?_dropWhile_not (fun c => !isAuthTerm c) rest
                  rw [← hrest2] at this
                  simpa [hh] using this
                have hd' : isAuthTerm d = true := by simpa using hd
                have : d = '/' ∨ d = '?' ∨ d = '#' := by
                  revert hd'
                  simp [isAuthTerm]
                  tauto
                rcases rest2 with - | ⟨e, r3⟩
                · simp at hh
                · have he : e = d := by simpa using hh
                  subst he
                  rcases this with rfl | rfl | rfl
                  · right
                    rw [hpd]
                    simp [List.takeWhile_cons, show pathChar ('/' : Char) = true by decide]
                  · left
                    apply data_eq_nil
                    rw [hpd]
                    simp [List.takeWhile_cons, show pathChar ('?' : Char) = false by decide]
                  · left
                    apply data_eq_nil
                    rw [hpd]
                    simp [List.takeWhile_cons, show pathChar ('#' : Char) = false by decide]

theorem parse_inv {s : String} {u : Uri} (h : Uri.parse s = some u) : UriInv u := by
  unfold Uri.parse at h
  rcases hd : s.data with - | ⟨c, rest⟩ <;> rw [hd] at h
  · exact absurd h (by simp)
  · dsimp only at h
    split at h
    · cases Option.some.inj h
      refine ⟨fun sch hs => (by cases hs), ?_, fun hs => (by simp at hs)⟩
      intro ch hc
      simp at hc
      subst hc
      decide
    · split at h
      · rcases hpq : paqParse (c :: rest) with - | ⟨p, q⟩ <;> rw [hpq] at h <;> dsimp only at h
        · exact absurd h (by simp)
        · cases Option.some.inj h
          obtain ⟨-, hpc, -⟩ := paqParse_some hpq
          exact ⟨fun sch hs => (by cases hs), hpc, fun hs => (by simp at hs)⟩
      · exact parseFull_inv h

/-! ## Parsing specifications of the domain types -/

theorem schemeEq_std_iff (sch : Scheme) :
    (schemeEq sch Scheme.http || schemeEq sch Scheme.https) = true ↔
      sch = Scheme.http ∨ sch = Scheme.https := by
  cases sch <;> simp [schemeEq]

theorem endpoint_from_str_some {s : String} {e : EndpointUrl}
    (h : EndpointUrl.from_str s = some e) :
    Uri.parse s = some e.uri ∧
    (∃ sch, e.uri.scheme = some sch ∧
      (schemeEq sch Scheme.http || schemeEq sch Scheme.https) = true) ∧
    e.uri.query = none := by
  unfold EndpointUrl.from_str at h
  rcases hp : Uri.parse s with - | uri <;> rw [hp] at h <;> dsimp only at h
  · exact absurd h (by simp)
  · rcases hs : uri.scheme with - | sch <;> rw [hs] at h <;> dsimp only at h
    · exact absurd h (by simp)
    · split at h
      · exact absurd h (by simp)
      · next hstd =>
          have hstd' : (schemeEq sch Scheme.http || schemeEq sch Scheme.https) = true := by
            rcases hb : (schemeEq sch Scheme.http || schemeEq sch Scheme.https)
            · exact absurd (by simp [hb]) hstd
            · rfl
          rcases hq : uri.query with - | q <;> rw [hq] at h <;> dsimp only at h
          · cases Option.some.inj h
            exact ⟨rfl, ⟨sch, hs, hstd'⟩, hq⟩
          · exact absurd h (by simp)

theorem keyfile_from_str_some {s : String} {k : KeyfileUrl}
    (h : KeyfileUrl.from_str s = some k) :
    Uri.parse s = some k.uri ∧
    ∃ sch, k.uri.scheme = some sch ∧
      (schemeEq sch Scheme.http || schemeEq sch Scheme.https) = true := by
  unfold KeyfileUrl.from_str at h
  rcases hp : Uri.parse s with - | uri <;> rw [hp] at h <;> dsimp only at h
  · exact absurd h (by simp)
  · rcases hs : uri.scheme with - | sch <;> rw [hs] at h <;> dsimp only at h
    · exact absurd h (by simp)
    · split at h
      · exact absurd h (by simp)
      · next hstd =>
          have hstd' : (schemeEq sch Scheme.http || schemeEq sch Scheme.https) = true := by
            rcases hb : (schemeEq sch Scheme.http || schemeEq sch Scheme.https)
            · exact absurd (by simp [hb]) hstd
            · rfl
          cases Option.some.inj h
          exact ⟨rfl, sch, hs, hstd'⟩

theorem content_from_str_some {s : String} {k : ContentUrl}
    (h : ContentUrl.from_str s = some k) :
    Uri.parse s = some k.uri ∧
    ∃ sch, k.uri.scheme = some sch ∧
      (schemeEq sch Scheme.http || schemeEq sch Scheme.https) = true := by
  unfold ContentUrl.from_str at h
  rcases hp : Uri.parse s with - | uri <;> rw [hp] at h <;> dsimp only at h
  · exact absurd h (by simp)
  · rcases hs : uri.scheme with - | sch <;> rw [hs] at h <;> dsimp only at h
    · exact absurd h (by simp)
    · split at h
      · exact absurd h (by simp)
      · next hstd =>
          have hstd' : (schemeEq sch Scheme.http || schemeEq sch Scheme.https) = true := by
            rcases hb : (schemeEq sch Scheme.http || schemeEq sch Scheme.https)
            · exact absurd (by simp [hb]) hstd
            · rfl
          cases Option.some.inj h
          exact ⟨rfl, sch, hs, hstd'⟩

/-! ## Safety of the form-urlencoded encoder -/

theorem encByte_queryChar : ∀ b < 256, ∀ c ∈ encByte b, queryChar c = true := by decide

theorem char_toNat_lt (c : Char) : c.toNat < 1114112 := by
  have h := c.valid
  have e : c.toNat = c.val.toNat := rfl
  rcases h with h | ⟨h1, h2⟩ <;> omega

theorem utf8Bytes_lt {c : Char} : ∀ b ∈ utf8Bytes c, b < 256 := by
  have hv := char_toNat_lt c
  intro b hb
  unfold utf8Bytes at hb
  dsimp only at hb
  split at hb
  · simp at hb; omega
  · split at hb
    · simp at hb; rcases hb with rfl | rfl <;> omega
    · split at hb
      · simp at hb; rcases hb with rfl | rfl | rfl <;> omega
      · simp at hb; rcases hb with rfl | rfl | rfl | rfl <;> omega

theorem formUrlencode_queryChar (s : String) :
    ∀ c ∈ (formUrlencode s).data, queryChar c = true := by
  intro c hc
  have hc' : c ∈ s.data.flatMap fun ch => (utf8Bytes ch).flatMap encByte := hc
  obtain ⟨ch, -, hb⟩ := List.mem_flatMap.mp hc'
  obtain ⟨b, hb1, hb2⟩ := List.mem_flatMap.mp hb
  exact encByte_queryChar b (utf8Bytes_lt b hb1) c hb2

theorem pair_queryChar (a b : String) :
    ∀ c ∈ (formUrlencode a ++ "=" ++ formUrlencode b).data, queryChar c = true := by
  intro c hc
  rw [String.data_append, String.data_append] at hc
  rcases List.mem_append.mp hc with hc1 | hc2
  · rcases List.mem_append.mp hc1 with hc3 | hc4
    · exact formUrlencode_queryChar a c hc3
    · simp at hc4
      subst hc4
      decide
  · exact formUrlencode_queryChar b c hc2

theorem urlencodePairs_queryChar (ps : List (String × String)) :
    ∀ c ∈ (urlencodePairs ps).data, queryChar c = true := by
  induction ps with
  | nil => intro c hc; simp [urlencodePairs, joinAmp] at hc
  | cons p ps ih =>
      intro c hc
      cases ps with
      | nil => exact pair_queryChar p.1 p.2 c hc
      | cons p2 ps2 =>
          have hc' : c ∈ ((formUrlencode p.1 ++ "=" ++ formUrlencode p.2) ++ "&" ++
              urlencodePairs (p2 :: ps2)).data := hc
          rw [String.data_append, String.data_append] at hc'
          rcases List.mem_append.mp hc' with hc1 | hc2
          · rcases List.mem_append.mp hc1 with hc3 | hc4
            · exact pair_queryChar p.1 p.2 c hc3
            · simp at hc4
              subst hc4
              decide
          · exact ih c hc2

/-! ## The single-URL GET builder -/

theorem path_accessor_chars {u : Uri} (inv : UriInv u) :
    ∀ c ∈ u.path.data, pathChar c = true := by
  unfold Uri.path
  split
  · split
    · intro c hc
      have hslash : ("/" : String).data = [Char.ofNat 47] := rfl
      rw [hslash] at hc
      simp at hc
      subst hc
      decide
    · exact inv.pathChars
  · intro c hc
    have hnil : ("" : String).data = [] := rfl
    rw [hnil] at hc
    cases hc

/-- What `submit_one_request` produces on a validated endpoint: a GET whose
URI keeps the endpoint scheme and authority, whose path is the endpoint
path, and whose query is the form-urlencoded `Query` struct. -/
theorem submit_one_request_spec {es : String} {e : EndpointUrl}
    (he : EndpointUrl.from_str es = some e) (k : Key) (loc : KeyfileLocation) (u : ContentUrl) :
    submit_one_request e k loc u = some ⟨"GET",
      ⟨e.uri.scheme, e.uri.authority, e.uri.path,
       some (urlencodePairs (queryPairs u k loc))⟩, [], Body.empty⟩ := by
  obtain ⟨hp, ⟨sch, hsch, hstd⟩, hq⟩ := endpoint_from_str_some he
  have inv := parse_inv hp
  have hpath := path_accessor_chars inv
  obtain ⟨a, hauth, hane, hfix⟩ := inv.schemeAuth sch hsch
  have hdata : (e.uri.path ++ "?" ++ urlencodePairs (queryPairs u k loc)).data
      = e.uri.path.data ++ '?' :: (urlencodePairs (queryPairs u k loc)).data := by
    rw [String.data_append, String.data_append]
    have hqm : ("?" : String).data = [Char.ofNat 63] := rfl
    rw [hqm]
    simp
  have hpaq := paqParse_with_query hpath (urlencodePairs_queryChar (queryPairs u k loc))
  unfold submit_one_request
  dsimp only
  rw [hdata, hpaq, mk_data, mk_data, hsch, hauth]
  unfold uriFromParts
  rfl

/-! ## Re-parsing a rendered URI (round-trip) -/

theorem schemeParse_http (rest : List Char) :
    schemeParse ('h' :: 't' :: 't' :: 'p' :: ':' :: '/' :: '/' :: rest) =
      (some Scheme.http, rest) := by
  unfold schemeParse
  have h7 : lowerList (List.take 7 ('h' :: 't' :: 't' :: 'p' :: ':' :: '/' :: '/' :: rest))
      = "http://".data := rfl
  rw [if_pos h7]
  rfl

theorem schemeParse_https (rest : List Char) :
    schemeParse ('h' :: 't' :: 't' :: 'p' :: 's' :: ':' :: '/' :: '/' :: rest) =
      (some Scheme.https, rest) := by
  unfold schemeParse
  have e7 : lowerList (List.take 7 ('h' :: 't' :: 't' :: 'p' :: 's' :: ':' :: '/' :: '/' :: rest))
      = ['h', 't', 't', 'p', 's', ':', '/'] := rfl
  have h8 : lowerList (List.take 8 ('h' :: 't' :: 't' :: 'p' :: 's' :: ':' :: '/' :: '/' :: rest))
      = "https://".data := rfl
  rw [if_neg (by rw [e7]; decide), if_pos h8]
  rfl

/-- After a recognized scheme, a valid non-empty authority followed by a
slash-led all-path-chars tail parses back into exactly those components. -/
theorem parseFull_after_scheme {sch : Scheme} {a ps cs : List Char}
    (hsp : schemeParse cs = (some sch, a ++ '/' :: ps))
    (hfix : authorityParse a = some (a, []))
    (hane : a ≠ [])
    (hpc : ∀ c ∈ '/' :: ps, pathChar c = true) :
    parseFull cs = some ⟨some sch, some (String.mk a), String.mk ('/' :: ps), none⟩ := by
  unfold parseFull
  rw [hsp]
  dsimp only
  have hterm : ∀ d, ('/' :: ps).head? = some d → isAuthTerm d = true := by
    intro d hd
    have : '/' = d := Option.some.inj hd
    subst this
    decide
  rw [authorityParse_append hfix hterm]
  dsimp only
  have hemp : a.isEmpty = false := by simpa [List.isEmpty_iff] using hane
  rw [if_neg (by simp [hemp]), paqParse_path_only hpc]

theorem path_cons_form {u : Uri} {sch : Scheme} (hsch : u.scheme = some sch)
    (inv : UriInv u) : ∃ ps, u.path.data = '/' :: ps := by
  have hshape := inv.pathShape (by simp [hsch])
  unfold Uri.path Uri.hasPath
  rw [hsch]
  rcases hshape with hemp | hhead
  · refine ⟨[], ?_⟩
    rw [hemp]
    simp
  · have hne : ¬ u.pathRaw = "" := by
      intro hcontra
      rw [hcontra] at hhead
      cases hhead
    rcases hd : u.pathRaw.data with - | ⟨c, ps⟩
    · exact absurd (data_eq_nil hd) hne
    · refine ⟨ps, ?_⟩
      have hc : c = '/' := by
        rw [hd] at hhead
        exact Option.some.inj hhead
      subst hc
      simp [hne, hd]

/-- Parsing the `Display` rendering of a parsed http/https URI without a
query succeeds and recovers the scheme, the authority and the normalized
path. -/
theorem parse_render {u : Uri} {sch : Scheme} (hsch : u.scheme = some sch)
    (hstd : sch = Scheme.http ∨ sch = Scheme.https) (hq : u.query = none)
    (inv : UriInv u) :
    Uri.parse (Uri.toString u) = some ⟨some sch, u.authority, u.path, none⟩ := by
  obtain ⟨a, hauth, hane, hfix⟩ := inv.schemeAuth sch hsch
  obtain ⟨ps, hps⟩ := path_cons_form hsch inv
  have hpc : ∀ c ∈ '/' :: ps, pathChar c = true := by
    rw [← hps]
    exact fun c hc => path_accessor_chars inv c hc
  have hgoalRhs : some (Uri.mk (some sch) (some (String.mk a.data)) (String.mk ('/' :: ps)) none)
      = some (Uri.mk (some sch) u.authority u.path none) := by
    rw [mk_data, hauth, ← hps, mk_data]
  rcases hstd with rfl | rfl
  · have hdata : (Uri.toString u).data =
        'h' :: 't' :: 't' :: 'p' :: ':' :: '/' :: '/' :: (a.data ++ '/' :: ps) := by
      unfold Uri.toString
      rw [hsch, hauth, hq]
      dsimp only [Scheme.str]
      simp only [String.data_append]
      rw [hps]
      simp
    unfold Uri.parse
    rw [hdata]
    dsimp only
    rw [if_neg (by simp), if_neg (by simp)]
    rw [parseFull_after_scheme (schemeParse_http _) hfix hane hpc]
    exact hgoalRhs
  · have hdata : (Uri.toString u).data =
        'h' :: 't' :: 't' :: 'p' :: 's' :: ':' :: '/' :: '/' :: (a.data ++ '/' :: ps) := by
      unfold Uri.toString
      rw [hsch, hauth, hq]
      dsimp only [Scheme.str]
      simp only [String.data_append]
      rw [hps]
      simp
    unfold Uri.parse
    rw [hdata]
    dsimp only
    rw [if_neg (by simp), if_neg (by simp)]
    rw [parseFull_after_scheme (schemeParse_https _) hfix hane hpc]
    exact hgoalRhs

theorem eqIgnoreAsciiCase_refl (a : String) : eqIgnoreAsciiCase a a = true := by
  simp [eqIgnoreAsciiCase]

theorem path_of_nonempty (sch : Scheme) (auth : Option String) (p : String)
    (hp : ¬ p = "") : Uri.path ⟨some sch, auth, p, none⟩ = p := by
  unfold Uri.path Uri.hasPath
  simp [hp]


theorem roundtrip_core {u : Uri} {sch : Scheme} (hsch : u.scheme = some sch)
    (hstd : sch = Scheme.http ∨ sch = Scheme.https) (hq : u.query = none)
    (inv : UriInv u) :
    Uri.parse (Uri.toString u) = some ⟨some sch, u.authority, u.path, none⟩ ∧
    uriEq ⟨some sch, u.authority, u.path, none⟩ u = true := by
  refine ⟨parse_render hsch hstd hq inv, ?_⟩
  obtain ⟨a, hauth, hane, -⟩ := inv.schemeAuth sch hsch
  obtain ⟨ps, hps⟩ := path_cons_form hsch inv
  have hpne : ¬ (u.path = "") := by
    intro hcontra
    rw [hcontra] at hps
    simp at hps
  have hse : schemeEq sch sch = true := by rcases hstd with rfl | rfl <;> rfl
  unfold uriEq
  dsimp only
  rw [path_of_nonempty sch u.authority u.path hpne, hsch, hauth, hq]
  simp [hse, eqIgnoreAsciiCase_refl]

/-- Claim C8: for every string that parses as an absolute http or https URL
without a query string, re-parsing the canonical rendering of the parsed
value compares equal (under the library equality) to the original parse,
for each of `EndpointUrl`, `KeyfileUrl` and `ContentUrl`. -/
theorem claim_C8_roundtrip (s : String) :
    (∀ e : EndpointUrl, EndpointUrl.from_str s = some e →
      optEqBy (fun a b => uriEq a.uri b.uri)
        (EndpointUrl.from_str (EndpointUrl.toString e)) (EndpointUrl.from_str s) = true)
  ∧ (∀ k : KeyfileUrl, KeyfileUrl.from_str s = some k → k.uri.query = none →
      optEqBy (fun a b => uriEq a.uri b.uri)
        (KeyfileUrl.from_str (KeyfileUrl.toString k)) (KeyfileUrl.from_str s) = true)
  ∧ (∀ c : ContentUrl, ContentUrl.from_str s = some c → c.uri.query = none →
      optEqBy (fun a b => uriEq a.uri b.uri)
        (ContentUrl.from_str (ContentUrl.toString c)) (ContentUrl.from_str s) = true) := by
  refine ⟨?_, ?_, ?_⟩
  · intro e he
    obtain ⟨hp, ⟨sch, hsch, hstdb⟩, hq⟩ := endpoint_from_str_some he
    have hstd := (schemeEq_std_iff sch).mp hstdb
    have inv := parse_inv hp
    obtain ⟨hparse, heq⟩ := roundtrip_core hsch hstd hq inv
    have hfs : EndpointUrl.from_str (EndpointUrl.toString e) =
        some ⟨⟨some sch, e.uri.authority, e.uri.path, none⟩⟩ := by
      unfold EndpointUrl.from_str EndpointUrl.toString
      rw [hparse]
      dsimp only
      rw [hstdb]
      rfl
    rw [hfs, he]
    exact heq
  · intro k hk hq
    obtain ⟨hp, sch, hsch, hstdb⟩ := keyfile_from_str_some hk
    have hstd := (schemeEq_std_iff sch).mp hstdb
    have inv := parse_inv hp
    obtain ⟨hparse, heq⟩ := roundtrip_core hsch hstd hq inv
    have hfs : KeyfileUrl.from_str (KeyfileUrl.toString k) =
        some ⟨⟨some sch, k.uri.authority, k.uri.path, none⟩⟩ := by
      unfold KeyfileUrl.from_str KeyfileUrl.toString
      rw [hparse]
      dsimp only
      rw [hstdb]
      rfl
    rw [hfs, hk]
    exact heq
  · intro c hc hq
    obtain ⟨hp, sch, hsch, hstdb⟩ := content_from_str_some hc
    have hstd := (schemeEq_std_iff sch).mp hstdb
    have inv := parse_inv hp
    obtain ⟨hparse, heq⟩ := roundtrip_core hsch hstd hq inv
    have hfs : ContentUrl.from_str (ContentUrl.toString c) =
        some ⟨⟨some sch, c.uri.authority, c.uri.path, none⟩⟩ := by
      unfold ContentUrl.from_str ContentUrl.toString
      rw [hparse]
      dsimp only
      rw [hstdb]
      rfl
    rw [hfs, hc]
    exact heq

/-! ## Claims -/

/-- Claim C1: for every validated endpoint, key, key-file location and
content URL, the single-URL builder produces a GET request to the
endpoint's scheme/authority/path whose query string is the form-urlencoding
of, in order, `url` (the content URL), `key` (the raw key) and — only for
the explicit-URL variant — `keyLocation`; the root-directory variant omits
the parameter and the body is empty. -/
theorem claim_C1_single_url_get (es ks us : String) (e : EndpointUrl) (k : Key)
    (u : ContentUrl) (loc : KeyfileLocation)
    (he : EndpointUrl.from_str es = some e) (_hk : Key.from_str ks = some k)
    (_hu : ContentUrl.from_str us = some u) :
    submit_one_request e k loc u = some ⟨"GET",
      ⟨e.uri.scheme, e.uri.authority, e.uri.path,
       some (urlencodePairs ([("url", u.toString), ("key", k.val)] ++
        match loc with
        | .rootDirectory => []
        | .url kf => [("keyLocation", kf.toString)]))⟩, [], Body.empty⟩ :=
  submit_one_request_spec he k loc u

/-- Executable instance of claim C1 at the spec's concrete example, with
the rendered target URI checked against the expected string. -/
theorem claim_C1_witness :
    EndpointUrl.from_str "https://api.indexnow.org/indexnow" = some exEndpoint ∧
    Key.from_str "687a308e4eff49f994d89eb22f764514" = some exKey ∧
    ContentUrl.from_str "https://www.example.com/product.html" = some exContent ∧
    submit_one_request exEndpoint exKey KeyfileLocation.rootDirectory exContent = some ⟨"GET",
      ⟨exEndpoint.uri.scheme, exEndpoint.uri.authority, exEndpoint.uri.path,
       some (urlencodePairs [("url", exContent.toString), ("key", exKey.val)])⟩,
      [], Body.empty⟩ ∧
    (submit_one_request exEndpoint exKey KeyfileLocation.rootDirectory exContent).map
        (fun r => (r.method, r.uri.toString, r.body)) =
      some ("GET",
        "https://api.indexnow.org/indexnow?url=https%3A%2F%2Fwww.example.com%2Fproduct.html&key=687a308e4eff49f994d89eb22f764514",
        Body.empty) := by
  refine ⟨by decide, by decide, by decide, ?_, by decide⟩
  exact claim_C1_single_url_get "https://api.indexnow.org/indexnow"
    "687a308e4eff49f994d89eb22f764514" "https://www.example.com/product.html"
    exEndpoint exKey exContent KeyfileLocation.rootDirectory
    (by decide) (by decide) (by decide)

/-- Claim C2: for a validated first URL (and any further URLs), the batch
builder produces a POST to the endpoint verbatim with the JSON content
type, and a body whose fields are, in order: `host` (the host of the first
URL), `key` (the raw key), `keyLocation` exactly when the location is the
explicit-URL variant (omitted entirely otherwise), and `urlList` (the
canonical strings of the URLs in caller order). -/
theorem claim_C2_batch_post (us : String) (u : ContentUrl) (h : String)
    (e : EndpointUrl) (k : Key) (loc : KeyfileLocation) (rest : List ContentUrl)
    (_hu : ContentUrl.from_str us = some u) (hh : u.uri.host = some h) :
    submit_set_request e k loc (u :: rest) = BuildResult.built ⟨"POST", e.uri,
      [("content-type", "application/json")],
      Body.json ([("host", JsonVal.jstr h), ("key", JsonVal.jstr k.val)] ++
        (match loc with
         | .rootDirectory => []
         | .url kf => [("keyLocation", JsonVal.jstr kf.toString)]) ++
        [("urlList", JsonVal.jarrStr ((u :: rest).map ContentUrl.toString))])⟩ := by
  unfold submit_set_request
  dsimp only
  rw [hh]
  rfl

/-- Executable instance of claim C2 at the crate test's batch example,
with the rendered JSON body checked against the expected document. -/
theorem claim_C2_witness :
    ContentUrl.from_str "https://www.example.com/url1" = some exUrl1 ∧
    exUrl1.uri.host = some "www.example.com" ∧
    submit_set_request exEndpoint exKey KeyfileLocation.rootDirectory
        [exUrl1, exUrl2, exUrl3] = BuildResult.built ⟨"POST", exEndpoint.uri,
      [("content-type", "application/json")],
      Body.json ([("host", JsonVal.jstr "www.example.com"),
        ("key", JsonVal.jstr exKey.val)] ++
        [("urlList", JsonVal.jarrStr ([exUrl1, exUrl2, exUrl3].map ContentUrl.toString))])⟩ ∧
    (match submit_set_request exEndpoint exKey KeyfileLocation.rootDirectory
        [exUrl1, exUrl2, exUrl3] with
     | BuildResult.built r => r.body.render
     | BuildResult.panics _ => "") =
      "\x7b\"host\":\"www.example.com\",\"key\":\"687a308e4eff49f994d89eb22f764514\",\"urlList\":[\"https://www.example.com/url1\",\"https://www.example.com/folder/url2\",\"https://www.example.com/url3\"]\x7d" := by
  refine ⟨by decide, by decide, ?_, by decide⟩
  exact claim_C2_batch_post "https://www.example.com/url1" exUrl1 "www.example.com"
    exEndpoint exKey KeyfileLocation.rootDirectory [exUrl2, exUrl3]
    (by decide) (by decide)

theorem endpoint_from_str_iff (s : String) :
    (EndpointUrl.from_str s).isSome = true ↔
      ∃ u, Uri.parse s = some u ∧
        (u.scheme = some Scheme.http ∨ u.scheme = some Scheme.https) ∧ u.query = none := by
  constructor
  · intro h
    rcases ho : EndpointUrl.from_str s with - | e
    · rw [ho] at h; simp at h
    · obtain ⟨hp, ⟨sch, hsch, hstdb⟩, hq⟩ := endpoint_from_str_some ho
      refine ⟨e.uri, hp, ?_, hq⟩
      rcases (schemeEq_std_iff sch).mp hstdb with rfl | rfl <;> simp [hsch]
  · rintro ⟨u, hp, hstd, hq⟩
    unfold EndpointUrl.from_str
    rw [hp]
    dsimp only
    rcases hstd with h1 | h1 <;> rw [h1] <;> simp [schemeEq, hq]

theorem keyfile_from_str_iff (s : String) :
    (KeyfileUrl.from_str s).isSome = true ↔
      ∃ u, Uri.parse s = some u ∧
        (u.scheme = some Scheme.http ∨ u.scheme = some Scheme.https) := by
  constructor
  · intro h
    rcases ho : KeyfileUrl.from_str s with - | e
    · rw [ho] at h; simp at h
    · obtain ⟨hp, sch, hsch, hstdb⟩ := keyfile_from_str_some ho
      refine ⟨e.uri, hp, ?_⟩
      rcases (schemeEq_std_iff sch).mp hstdb with rfl | rfl <;> simp [hsch]
  · rintro ⟨u, hp, hstd⟩
    unfold KeyfileUrl.from_str
    rw [hp]
    dsimp only
    rcases hstd with h1 | h1 <;> rw [h1] <;> simp [schemeEq]

theorem content_from_str_iff (s : String) :
    (ContentUrl.from_str s).isSome = true ↔
      ∃ u, Uri.parse s = some u ∧
        (u.scheme = some Scheme.http ∨ u.scheme = some Scheme.https) := by
  constructor
  · intro h
    rcases ho : ContentUrl.from_str s with - | e
    · rw [ho] at h; simp at h
    · obtain ⟨hp, sch, hsch, hstdb⟩ := content_from_str_some ho
      refine ⟨e.uri, hp, ?_⟩
      rcases (schemeEq_std_iff sch).mp hstdb with rfl | rfl <;> simp [hsch]
  · rintro ⟨u, hp, hstd⟩
    unfold ContentUrl.from_str
    rw [hp]
    dsimp only
    rcases hstd with h1 | h1 <;> rw [h1] <;> simp [schemeEq]

/-- Claim C3: each URL newtype parses successfully exactly when the input
parses as an absolute URL whose scheme is http or https, with
`EndpointUrl` additionally rejecting any query string; all other inputs
fail (with the per-type unit error value, modelled as `none`). -/
theorem claim_C3_url_parse_characterization (s : String) :
    ((EndpointUrl.from_str s).isSome = true ↔
      ∃ u, Uri.parse s = some u ∧
        (u.scheme = some Scheme.http ∨ u.scheme = some Scheme.https) ∧ u.query = none)
  ∧ ((KeyfileUrl.from_str s).isSome = true ↔
      ∃ u, Uri.parse s = some u ∧
        (u.scheme = some Scheme.http ∨ u.scheme = some Scheme.https))
  ∧ ((ContentUrl.from_str s).isSome = true ↔
      ∃ u, Uri.parse s = some u ∧
        (u.scheme = some Scheme.http ∨ u.scheme = some Scheme.https)) :=
  ⟨endpoint_from_str_iff s, keyfile_from_str_iff s, content_from_str_iff s⟩

/-- Claim C4: key parsing succeeds exactly on full-string matches of
`^[a-zA-Z0-9-]{8,128}$`, with the boundary cases behaving as stated. -/
theorem claim_C4_key_regex :
    (∀ s : String, (Key.from_str s).isSome = true ↔
      (8 ≤ s.data.length ∧ s.data.length ≤ 128 ∧ ∀ c ∈ s.data, isKeyChar c = true))
  ∧ (Key.from_str (String.mk (List.replicate 7 'a'))).isSome = false
  ∧ (Key.from_str (String.mk (List.replicate 8 'a'))).isSome = true
  ∧ (Key.from_str (String.mk (List.replicate 128 'a'))).isSome = true
  ∧ (Key.from_str (String.mk (List.replicate 129 'a'))).isSome = false
  ∧ (Key.from_str "687a308e4eff49f994d89eb2_f764514").isSome = false := by
  refine ⟨?_, by decide, by decide, by decide, by decide, by decide⟩
  intro s
  have hiff : keyRegexMatches s = true ↔
      (8 ≤ s.data.length ∧ s.data.length ≤ 128 ∧ ∀ c ∈ s.data, isKeyChar c = true) := by
    unfold keyRegexMatches
    simp [Bool.and_eq_true, List.all_eq_true, and_assoc]
  unfold Key.from_str
  split
  · next h => simpa using hiff.mp h
  · next h =>
      have : ¬ (8 ≤ s.data.length ∧ s.data.length ≤ 128 ∧ ∀ c ∈ s.data, isKeyChar c = true) :=
        fun hr => h (hiff.mpr hr)
      simpa using this

/-- Claim C5 (code bug in the source): called with an empty URL list,
`submit_set_request` does not return a `RequestBuildError`; it panics at
`urls[0]` (index out of bounds) before anything else happens. -/
theorem claim_C5_empty_urls_panics (e : EndpointUrl) (k : Key) (loc : KeyfileLocation) :
    submit_set_request e k loc [] =
      BuildResult.panics "index out of bounds: the len is 0 but the index is 0" ∧
    (submit_set_request e k loc []).isBuilt = false := ⟨rfl, rfl⟩

/-- Claim C6 counterexample: `submit` branches on the URL list length —
with exactly one URL it builds (and prints) the single-URL GET request,
with two identical URLs it builds nothing — so the form is inferred from
the list length by `submit`, not chosen by the caller. -/
theorem claim_C6_counterexample :
    (submit exEndpoint exKey KeyfileLocation.rootDirectory [exContent]).isSingleBuild = true ∧
    (submit exEndpoint exKey KeyfileLocation.rootDirectory
      [exContent, exContent]).isSingleBuild = false ∧
    submit exEndpoint exKey KeyfileLocation.rootDirectory [exContent, exContent] =
      SubmitResult.todoPanic := ⟨by decide, by decide, by decide⟩

/-- Claim C6 amended: the core `submit` infers the form from the list
length: any length other than one reaches `todo!()` without building, and
exactly one validated URL makes it build the single-URL GET request (and
then hit `todo!()`); no completed submission path exists and the batch
form is never chosen. -/
theorem claim_C6_amended :
    (∀ (e : EndpointUrl) (k : Key) (loc : KeyfileLocation) (urls : List ContentUrl),
      urls.length ≠ 1 → submit e k loc urls = SubmitResult.todoPanic)
  ∧ (∀ (es ks us : String) (e : EndpointUrl) (k : Key) (u : ContentUrl)
      (loc : KeyfileLocation),
      EndpointUrl.from_str es = some e → Key.from_str ks = some k →
      ContentUrl.from_str us = some u →
      submit e k loc [u] = SubmitResult.todoPanicAfterSingle ⟨"GET",
        ⟨e.uri.scheme, e.uri.authority, e.uri.path,
         some (urlencodePairs (queryPairs u k loc))⟩, [], Body.empty⟩) := by
  constructor
  · intro e k loc urls h
    rcases urls with - | ⟨u1, - | ⟨u2, r⟩⟩
    · rfl
    · exact absurd rfl h
    · rfl
  · intro es ks us e k u loc he hk hu
    unfold submit
    dsimp only
    rw [submit_one_request_spec he k loc u]

/-- Executable instance of the amended claim C6 at concrete inputs of
length two and one. -/
theorem claim_C6_witness :
    submit exEndpoint exKey KeyfileLocation.rootDirectory [exContent, exContent] =
      SubmitResult.todoPanic ∧
    submit exEndpoint exKey KeyfileLocation.rootDirectory [exContent] =
      SubmitResult.todoPanicAfterSingle ⟨"GET",
        ⟨exEndpoint.uri.scheme, exEndpoint.uri.authority, exEndpoint.uri.path,
         some (urlencodePairs (queryPairs exContent exKey KeyfileLocation.rootDirectory))⟩,
        [], Body.empty⟩ :=
  ⟨claim_C6_amended.1 exEndpoint exKey KeyfileLocation.rootDirectory
      [exContent, exContent] (by decide),
   claim_C6_amended.2 "https://api.indexnow.org/indexnow"
      "687a308e4eff49f994d89eb22f764514" "https://www.example.com/product.html"
      exEndpoint exKey exContent KeyfileLocation.rootDirectory
      (by decide) (by decide) (by decide)⟩

/-- The batch builder preserves the full caller-supplied URL list: the
`urlList` array of the built request has exactly the input length. -/
theorem submit_set_urlList_length (e : EndpointUrl) (k : Key) (loc : KeyfileLocation)
    (u : ContentUrl) (rest : List ContentUrl) (h : String)
    (hh : u.uri.host = some h) :
    urlListLengthOf (submit_set_request e k loc (u :: rest)) = some (rest.length + 1) := by
  unfold submit_set_request
  dsimp only
  rw [hh]
  dsimp only
  unfold urlListLengthOf
  dsimp only
  cases loc <;> simp [urlSetFields, findField]

/-- Claim C7 counterexample: the core batch builder, applied to a list of
10,001 content URLs, builds the POST request anyway — its `urlList` has
10,001 entries, which the claimed invariant (at most 10,000) forbids, and
which the CLI bound would have rejected. -/
theorem claim_C7_counterexample :
    urlListLengthOf (submit_set_request exEndpoint exKey KeyfileLocation.rootDirectory
      (List.replicate 10001 exContent)) = some 10001 ∧
    cliUrlsCountAccepted 10001 = false ∧ 10000 < 10001 := by
  refine ⟨?_, by decide, by decide⟩
  rw [List.replicate_succ,
    submit_set_urlList_length exEndpoint exKey KeyfileLocation.rootDirectory exContent
      (List.replicate 10000 exContent) "www.example.com" (by decide),
    List.length_replicate]

/-- Claim C7 amended: the 1–10,000 URL count bound is enforced only by the
CLI argument declaration; the core batch builder enforces no upper bound
and preserves any non-empty caller-supplied list length in the built
request. -/
theorem claim_C7_amended :
    (∀ n, cliUrlsCountAccepted n = true ↔ (1 ≤ n ∧ n ≤ 10000))
  ∧ (∀ (e : EndpointUrl) (k : Key) (loc : KeyfileLocation) (u : ContentUrl)
      (rest : List ContentUrl) (h : String), u.uri.host = some h →
      urlListLengthOf (submit_set_request e k loc (u :: rest)) = some (rest.length + 1)) := by
  constructor
  · intro n
    simp [cliUrlsCountAccepted]
  · intro e k loc u rest h hh
    exact submit_set_urlList_length e k loc u rest h hh

/-- Executable instance of the amended claim C7. -/
theorem claim_C7_witness :
    cliUrlsCountAccepted 10000 = true ∧
    urlListLengthOf (submit_set_request exEndpoint exKey KeyfileLocation.rootDirectory
      [exUrl1, exUrl2]) = some 2 :=
  ⟨(claim_C7_amended.1 10000).mpr (by decide),
   claim_C7_amended.2 exEndpoint exKey KeyfileLocation.rootDirectory exUrl1 [exUrl2]
     "www.example.com" (by decide)⟩

/-- Claim C9: constructing the default endpoint never reaches the failure
branch, and the default equals the parse of the literal
`https://api.indexnow.org/indexnow`. -/
theorem claim_C9_default_endpoint :
    EndpointUrl.defaultImpl = some exEndpoint ∧
    EndpointUrl.defaultImpl.isSome = true ∧
    EndpointUrl.defaultImpl = EndpointUrl.from_str "https://api.indexnow.org/indexnow" :=
  ⟨by decide, by decide, rfl⟩

/-- Claim C10: every successfully parsed `ContentUrl` carries a host, so
the `expect` on the host in the batch builder cannot panic when the list
head is a validated `ContentUrl` — the builder always reaches the built
request. -/
theorem claim_C10_host_present (s : String) (u : ContentUrl)
    (h : ContentUrl.from_str s = some u) :
    u.uri.host.isSome = true ∧
    ∀ (e : EndpointUrl) (k : Key) (loc : KeyfileLocation) (rest : List ContentUrl),
      (submit_set_request e k loc (u :: rest)).isBuilt = true := by
  obtain ⟨hp, sch, hsch, -⟩ := content_from_str_some h
  have inv := parse_inv hp
  obtain ⟨a, hauth, -, -⟩ := inv.schemeAuth sch hsch
  have hhost : u.uri.host.isSome = true := by
    unfold Uri.host
    rw [hauth]
    rfl
  refine ⟨hhost, ?_⟩
  intro e k loc rest
  unfold submit_set_request
  dsimp only
  rcases hh : u.uri.host with - | hst
  · rw [hh] at hhost
    simp at hhost
  · rfl

/-- Executable instance of claim C10. -/
theorem claim_C10_witness :
    exContent.uri.host.isSome = true ∧
    (submit_set_request exEndpoint exKey KeyfileLocation.rootDirectory
      [exContent]).isBuilt = true := by
  have h := claim_C10_host_present "https://www.example.com/product.html" exContent (by decide)
  exact ⟨h.1, h.2 exEndpoint exKey KeyfileLocation.rootDirectory []⟩

/-- Executable instance of claim C8 for the three types at concrete URLs. -/
theorem claim_C8_witness :
    optEqBy (fun a b => uriEq a.uri b.uri)
      (EndpointUrl.from_str (EndpointUrl.toString exEndpoint))
      (EndpointUrl.from_str "https://api.indexnow.org/indexnow") = true ∧
    optEqBy (fun a b => uriEq a.uri b.uri)
      (KeyfileUrl.from_str (KeyfileUrl.toString exKeyfile))
      (KeyfileUrl.from_str "https://www.example.com/myIndexNowKey63638.txt") = true ∧
    optEqBy (fun a b => uriEq a.uri b.uri)
      (ContentUrl.from_str (ContentUrl.toString exContent))
      (ContentUrl.from_str "https://www.example.com/product.html") = true :=
  ⟨(claim_C8_roundtrip "https://api.indexnow.org/indexnow").1 exEndpoint (by decide),
   (claim_C8_roundtrip "https://www.example.com/myIndexNowKey63638.txt").2.1 exKeyfile
     (by decide) (by decide),
   (claim_C8_roundtrip "https://www.example.com/product.html").2.2 exContent
     (by decide) (by decide)⟩

end Indexnow
